import Mathlib

/-!
Verification development for the adbf DBF (dBase/FoxPro) reader library.

The Rust source is shallowly embedded:
  - machine integers become Nat/Int with explicit wrapping where it matters;
  - byte buffers become List Nat (each element intended < 256);
  - fallible/panicking code returns a Run value: Run.ok for success,
    Run.err for a typed recoverable error (Rust Result::Err), and
    Run.abort for a Rust panic (process termination of the task);
  - the external text-encoding collaborator (encoding_rs) is modelled by a
    decoder parameter returning (result-kind, bytes-consumed, output);
  - the external chrono date library is modelled from the spec as a direct
    integer-to-calendar conversion on the proleptic Gregorian calendar
    (section 4.4 of the spec: direct integer/date conversion, day 0 epoch).
-/

/-- Outcome of running a piece of Rust code: normal result, typed error
(Rust Result::Err), or panic (process/task termination). -/
inductive Run (α : Type) where
  | ok : α → Run α
  | err : String → Run α
  | abort : String → Run α
deriving DecidableEq, Repr

/-- True exactly when the computation panicked (Rust panic / expect / unwrap). -/
def Run.panics {α : Type} : Run α → Bool
  | .abort _ => true
  | _ => false

/-- Byte access into a fixed-size Rust buffer; out-of-range reads 0 (all
call sites are guarded by length hypotheses or checks mirroring the source). -/
def byteAt (bytes : List Nat) (k : Nat) : Nat := bytes.getD k 0

/-- Little-endian unsigned value of a byte list (u16/u32/u64::from_le_bytes). -/
def leNat : List Nat → Nat
  | [] => 0
  | b :: rest => b + 256 * leNat rest

/-- Little-endian byte encoding of a natural number into w bytes (to_le_bytes). -/
def natLeBytes : Nat → Nat → List Nat
  | 0, _ => []
  | w + 1, n => n % 256 :: natLeBytes w (n / 256)

/-- Signed interpretation of an 8-byte little-endian buffer (i64::from_le_bytes). -/
def i64le (bs : List Nat) : Int :=
  let n := leNat bs
  if n < 2 ^ 63 then (n : Int) else (n : Int) - 2 ^ 64

/-- Signed interpretation of a 4-byte little-endian buffer (i32::from_le_bytes). -/
def i32le (bs : List Nat) : Int :=
  let n := leNat bs
  if n < 2 ^ 31 then (n : Int) else (n : Int) - 2 ^ 32

/-- Two's-complement truncation of an i64 value to i32 (Rust as i32). -/
def wrap32 (v : Int) : Int := (v + 2 ^ 31) % 2 ^ 32 - 2 ^ 31

/-- Encoding of a (possibly negative) integer as 8 little-endian bytes
(i64::to_le_bytes). -/
def i64ToLeBytes (v : Int) : List Nat := natLeBytes 8 (v % 2 ^ 64).toNat

/-- A calendar date, as the chrono collaborator presents it (year, month, day). -/
structure NaiveD where
  year : Int
  month : Nat
  day : Nat
deriving DecidableEq, Repr

/-- A calendar date and time of day (chrono NaiveDateTime). -/
structure NaiveDT where
  date : NaiveD
  hour : Nat
  minute : Nat
  second : Nat
deriving DecidableEq, Repr

/-- Day-of-era on which year-of-era y starts, in the March-based civil
calendar decomposition used to model the chrono conversion. -/
def yoeStart (y : Nat) : Nat := 365 * y + y / 4 - y / 100

/-- Recover the year-of-era from a day-of-era (the extraction step of the
civil-from-days conversion). -/
def yoeOfDoe (doe : Nat) : Nat :=
  (doe - doe / 1460 + doe / 36524 - doe / 146096) / 365

/-- Day count within a March-based year for a civil month/day pair. -/
def mdDays (m d : Nat) : Nat :=
  (153 * (if 2 < m then m - 3 else m + 9) + 2) / 5 + d - 1

/-- Month and day reconstructed from a day-of-March-based-year. -/
def doyToMD (doy : Nat) : Nat × Nat :=
  let mp := (5 * doy + 2) / 153
  let d := doy - (153 * mp + 2) / 5 + 1
  let m := if mp < 10 then mp + 3 else mp - 9
  (m, d)

/-- Modelled from the spec: the chrono collaborator converts a day number
into a proleptic Gregorian calendar date (civil-from-days); day 0 of this
inner function is 1970-01-01. -/
def civilFromDays (z : Int) : NaiveD :=
  let z' := z + 719468
  let era := z' / 146097
  let doe := (z' % 146097).toNat
  let yoe := yoeOfDoe doe
  let doy := doe - yoeStart yoe
  let md := doyToMD doy
  let y := era * 400 + yoe
  { year := if md.1 ≤ 2 then y + 1 else y, month := md.1, day := md.2 }

/-- Modelled from the spec: the chrono collaborator converts a proleptic
Gregorian calendar date into a day number (days-from-civil); inverse of
civilFromDays. -/
def daysFromCivil (date : NaiveD) : Int :=
  let y' := if date.month ≤ 2 then date.year - 1 else date.year
  let era := y' / 400
  let yoe := (y' % 400).toNat
  era * 146097 + (yoeStart yoe + mdDays date.month date.day : Nat) - 719468

/-- Modelled from the spec: chrono NaiveDate::from_num_days_from_ce; day 1
is 0001-01-01 of the proleptic Gregorian calendar. -/
def fromDaysCE (n : Int) : NaiveD := civilFromDays (n - 719163)

/-- Modelled from the spec: chrono NaiveDate num_days_from_ce of a date. -/
def toDaysCE (date : NaiveD) : Int := daysFromCivil date + 719163

example : fromDaysCE 737484 = { year := 2020, month := 2, day := 29 } := by decide
example : fromDaysCE 737485 = { year := 2020, month := 3, day := 1 } := by decide
example : fromDaysCE 0 = { year := 0, month := 12, day := 31 } := by decide
example : fromDaysCE 1 = { year := 1, month := 1, day := 1 } := by decide
example : toDaysCE { year := 2020, month := 2, day := 29 } = 737484 := by decide

/-- Numerator of the year-of-era extraction (monotone helper). -/
def hFun (doe : Nat) : Nat := doe - doe / 1460 + doe / 36524 - doe / 146096

theorem yoeOfDoe_eq (doe : Nat) : yoeOfDoe doe = hFun doe / 365 := rfl

/-- Last day-of-era belonging to year-of-era y (for y below 400). -/
def yoeLast (y : Nat) : Nat := if y = 399 then 146096 else yoeStart (y + 1) - 1

theorem hFun_le_succ (n : Nat) : hFun n ≤ hFun (n + 1) := by
  have h1 : (n + 1) / 1460 = n / 1460 + if 1460 ∣ n + 1 then 1 else 0 := Nat.succ_div _ _
  have h2 : (n + 1) / 36524 = n / 36524 + if 36524 ∣ n + 1 then 1 else 0 := Nat.succ_div _ _
  have h3 : (n + 1) / 146096 = n / 146096 + if 146096 ∣ n + 1 then 1 else 0 := Nat.succ_div _ _
  have hd : 146096 ∣ n + 1 → 36524 ∣ n + 1 := fun h => dvd_trans ⟨4, by norm_num⟩ h
  have hb1 : n / 1460 ≤ n := Nat.div_le_self _ _
  have hcb : n / 146096 ≤ n / 36524 := Nat.div_le_div_left (by norm_num) (by norm_num)
  have hcb' : (n + 1) / 146096 ≤ (n + 1) / 36524 :=
    Nat.div_le_div_left (by norm_num) (by norm_num)
  by_cases c3 : 146096 ∣ n + 1
  · have c2 : 36524 ∣ n + 1 := hd c3
    simp only [c2, c3, if_true] at h2 h3
    by_cases c1 : 1460 ∣ n + 1 <;>
      simp only [c1, if_true, if_false] at h1 <;> unfold hFun <;> omega
  · simp only [c3, if_false] at h3
    by_cases c1 : 1460 ∣ n + 1 <;> by_cases c2 : 36524 ∣ n + 1 <;>
      simp only [c1, c2, if_true, if_false] at h1 h2 <;> unfold hFun <;> omega

theorem hFun_mono : Monotone hFun := monotone_nat_of_le_succ hFun_le_succ

theorem yoeOfDoe_mono {a b : Nat} (h : a ≤ b) : yoeOfDoe a ≤ yoeOfDoe b := by
  rw [yoeOfDoe_eq, yoeOfDoe_eq]
  exact Nat.div_le_div_right (hFun_mono h)

set_option maxRecDepth 4000 in
set_option maxHeartbeats 1600000 in
theorem yoe_endpoints : ∀ y < 400, yoeOfDoe (yoeStart y) = y ∧ yoeOfDoe (yoeLast y) = y ∧
    yoeStart y ≤ yoeLast y ∧ yoeLast y - yoeStart y ≤ 365 := by decide

set_option maxRecDepth 4000 in
set_option maxHeartbeats 1600000 in
theorem md_roundtrip : ∀ doy < 366,
    mdDays (doyToMD doy).1 (doyToMD doy).2 = doy ∧
    1 ≤ (doyToMD doy).1 ∧ (doyToMD doy).1 ≤ 12 ∧
    1 ≤ (doyToMD doy).2 ∧ (doyToMD doy).2 ≤ 31 := by decide

theorem doe_cover (doe : Nat) (h : doe < 146097) :
    ∃ y, y ≤ 399 ∧ yoeStart y ≤ doe ∧ doe ≤ yoeLast y := by
  have hP0 : yoeStart 0 ≤ doe := by simp [yoeStart]
  refine ⟨Nat.findGreatest (fun y => yoeStart y ≤ doe) 399, Nat.findGreatest_le 399,
    Nat.findGreatest_spec (P := fun y => yoeStart y ≤ doe) (Nat.zero_le 399) hP0, ?_⟩
  by_cases hend : Nat.findGreatest (fun y => yoeStart y ≤ doe) 399 = 399
  · rw [hend]
    have h399 : yoeLast 399 = 146096 := by norm_num [yoeLast]
    omega
  · have hnot : ¬ (yoeStart (Nat.findGreatest (fun y => yoeStart y ≤ doe) 399 + 1) ≤ doe) := by
      have hle := Nat.findGreatest_le (P := fun y => yoeStart y ≤ doe) 399
      exact Nat.findGreatest_is_greatest (P := fun y => yoeStart y ≤ doe)
        (k := Nat.findGreatest (fun y => yoeStart y ≤ doe) 399 + 1)
        (Nat.lt_succ_self _) (by omega)
    have hLast : yoeLast (Nat.findGreatest (fun y => yoeStart y ≤ doe) 399)
        = yoeStart (Nat.findGreatest (fun y => yoeStart y ≤ doe) 399 + 1) - 1 := by
      rw [yoeLast, if_neg hend]
    omega

theorem cfd_inner (doe : Nat) (h : doe < 146097) :
    yoeOfDoe doe ≤ 399 ∧ yoeStart (yoeOfDoe doe) ≤ doe ∧
    doe - yoeStart (yoeOfDoe doe) ≤ 365 ∧
    1 ≤ (doyToMD (doe - yoeStart (yoeOfDoe doe))).1 ∧
    (doyToMD (doe - yoeStart (yoeOfDoe doe))).1 ≤ 12 ∧
    1 ≤ (doyToMD (doe - yoeStart (yoeOfDoe doe))).2 ∧
    (doyToMD (doe - yoeStart (yoeOfDoe doe))).2 ≤ 31 ∧
    yoeStart (yoeOfDoe doe) +
      mdDays (doyToMD (doe - yoeStart (yoeOfDoe doe))).1
        (doyToMD (doe - yoeStart (yoeOfDoe doe))).2 = doe := by
  obtain ⟨y, hy399, hlo, hhi⟩ := doe_cover doe h
  obtain ⟨e1, e2, e3, e4⟩ := yoe_endpoints y (by omega)
  have hy : yoeOfDoe doe = y := by
    have ha := yoeOfDoe_mono hlo
    have hb := yoeOfDoe_mono hhi
    omega
  rw [hy]
  have hdoy : doe - yoeStart y ≤ 365 := by omega
  obtain ⟨m1, m2, m3, m4, m5⟩ := md_roundtrip (doe - yoeStart y) (by omega)
  exact ⟨hy399, hlo, hdoy, m2, m3, m4, m5, by omega⟩

theorem days_civil_inverse (z : Int) : daysFromCivil (civilFromDays z) = z := by
  have hmodlt : (z + 719468) % 146097 < 146097 := Int.emod_lt_of_pos _ (by norm_num)
  have hmodge : (0 : Int) ≤ (z + 719468) % 146097 := Int.emod_nonneg _ (by norm_num)
  have hdecomp : 146097 * ((z + 719468) / 146097) + (z + 719468) % 146097
      = z + 719468 := Int.ediv_add_emod _ _
  set era : Int := (z + 719468) / 146097 with hera
  set doe : Nat := ((z + 719468) % 146097).toNat with hdoe
  have hdoeInt : ((doe : Int)) = (z + 719468) % 146097 := Int.toNat_of_nonneg hmodge
  have hdoeLt : doe < 146097 := by omega
  obtain ⟨i1, i2, i3, i4, i5, i6, i7, i8⟩ := cfd_inner doe hdoeLt
  set yoe : Nat := yoeOfDoe doe with hyoe
  set md : Nat × Nat := doyToMD (doe - yoeStart yoe) with hmd
  have hcfd : civilFromDays z =
      { year := if md.1 ≤ 2 then era * 400 + yoe + 1 else era * 400 + yoe,
        month := md.1, day := md.2 } := by
    simp only [civilFromDays]
  rw [hcfd]
  simp only [daysFromCivil]
  have hy' : (if md.1 ≤ 2 then
      (if md.1 ≤ 2 then era * 400 + (yoe : Int) + 1 else era * 400 + yoe) - 1
      else (if md.1 ≤ 2 then era * 400 + (yoe : Int) + 1 else era * 400 + yoe))
      = era * 400 + (yoe : Int) := by
    by_cases hm2 : md.1 ≤ 2 <;> simp [hm2]
  rw [hy']
  have hyoelt : (yoe : Int) < 400 := by exact_mod_cast Nat.lt_of_le_of_lt i1 (by norm_num)
  have hyoege : (0 : Int) ≤ (yoe : Int) := Int.ofNat_nonneg _
  have hediv : (era * 400 + (yoe : Int)) / 400 = era := by
    rw [add_comm, Int.add_mul_ediv_right _ _ (by norm_num : (400 : Int) ≠ 0)]
    rw [Int.ediv_eq_zero_of_lt hyoege hyoelt]
    ring
  have hemod : (era * 400 + (yoe : Int)) % 400 = (yoe : Int) := by
    rw [add_comm, mul_comm, Int.add_mul_emod_self_left]
    exact Int.emod_eq_of_lt hyoege hyoelt
  rw [hediv, hemod]
  have htonat : ((yoe : Int)).toNat = yoe := by omega
  rw [htonat]
  have hsum : ((yoeStart yoe + mdDays md.1 md.2 : Nat) : Int) = (doe : Int) := by
    exact_mod_cast i8
  rw [hsum]
  omega

theorem toDaysCE_fromDaysCE (n : Int) : toDaysCE (fromDaysCE n) = n := by
  simp only [toDaysCE, fromDaysCE, days_civil_inverse]
  ring

/-- DBF file-variant tag (enum DBFType in src/lib.rs). -/
inductive DBFType where
  | FoxBase
  | DBaseIIIPlus
  | DBaseIV
  | DBaseV
  | VisualFoxPro
  | VisualFoxProAutoInc
  | VisualFoxProVarBLOB
  | DBaseIVSQLTableFiles
  | DBaseIVSQLSystem
  | DBaseIIIPlusMemos
  | DBaseIVMemos
  | DBaseIVSQLTable
  | FoxProMemos
  | Undefined
deriving DecidableEq, Repr

/-- Embedding of DBFType::parse_type (src/lib.rs): match on the first
header byte, with a catch-all Undefined arm. -/
def DBFType.parse_type (flag : Nat) : DBFType :=
  match flag with
  | 0x02 => DBFType.FoxBase
  | 0x03 => DBFType.DBaseIIIPlus
  | 0x04 => DBFType.DBaseIV
  | 0x05 => DBFType.DBaseV
  | 0x30 => DBFType.VisualFoxPro
  | 0x31 => DBFType.VisualFoxProAutoInc
  | 0x32 => DBFType.VisualFoxProVarBLOB
  | 0x43 => DBFType.DBaseIVSQLTableFiles
  | 0x63 => DBFType.DBaseIVSQLSystem
  | 0x83 => DBFType.DBaseIIIPlusMemos
  | 0x8b => DBFType.DBaseIVMemos
  | 0x8e => DBFType.DBaseIVSQLTable
  | 0xf5 => DBFType.FoxProMemos
  | _ => DBFType.Undefined

/-- Statement of the spec's byte-to-variant table (section 4.2 of the spec):
the thirteen listed bytes map to their named variants and every other byte
value maps to Undefined. Written from the spec wording, for comparison
against the source embedding DBFType.parse_type. -/
def dbfTypeSpecTable (flag : Nat) : DBFType :=
  if flag = 0x02 then DBFType.FoxBase
  else if flag = 0x03 then DBFType.DBaseIIIPlus
  else if flag = 0x04 then DBFType.DBaseIV
  else if flag = 0x05 then DBFType.DBaseV
  else if flag = 0x30 then DBFType.VisualFoxPro
  else if flag = 0x31 then DBFType.VisualFoxProAutoInc
  else if flag = 0x32 then DBFType.VisualFoxProVarBLOB
  else if flag = 0x43 then DBFType.DBaseIVSQLTableFiles
  else if flag = 0x63 then DBFType.DBaseIVSQLSystem
  else if flag = 0x83 then DBFType.DBaseIIIPlusMemos
  else if flag = 0x8b then DBFType.DBaseIVMemos
  else if flag = 0x8e then DBFType.DBaseIVSQLTable
  else if flag = 0xf5 then DBFType.FoxProMemos
  else DBFType.Undefined

/-- Embedding of foxpro::cp_mapper (src/foxpro/mod.rs): byte-to-codepage
label table; unmapped bytes produce a typed Err value. -/
def cp_mapper (codepage : Nat) : Except String String :=
  match codepage with
  | 1 => Except.ok "cp437"
  | 2 => Except.ok "cp850"
  | 3 => Except.ok "cp1252"
  | 4 => Except.ok "cp10000"
  | 100 => Except.ok "cp852"
  | 101 => Except.ok "cp866"
  | 102 => Except.ok "cp865"
  | 103 => Except.ok "cp861"
  | 104 => Except.ok "cp895"
  | 105 => Except.ok "cp620"
  | 106 => Except.ok "cp737"
  | 107 => Except.ok "cp857"
  | 120 => Except.ok "cp950"
  | 121 => Except.ok "cp949"
  | 122 => Except.ok "cp936"
  | 123 => Except.ok "cp932"
  | 124 => Except.ok "tis620"
  | 125 => Except.ok "cp1255"
  | 126 => Except.ok "cp1256"
  | 150 => Except.ok "cp10007"
  | 151 => Except.ok "cp10029"
  | 152 => Except.ok "cp10006"
  | 200 => Except.ok "cp1250"
  | 201 => Except.ok "cp1251"
  | 202 => Except.ok "cp1254"
  | 203 => Except.ok "cp1253"
  | _ => Except.error "Unknown codepage found"

/-- Modelled from the spec: leap-year test of the proleptic Gregorian
calendar, used by the chrono collaborator to validate a year/month/day. -/
def isLeapYear (y : Int) : Bool := (y % 4 == 0 && y % 100 != 0) || y % 400 == 0

/-- Modelled from the spec: days in a month of the proleptic Gregorian
calendar (chrono collaborator). -/
def daysInMonth (y : Int) (m : Nat) : Nat :=
  if m = 2 then (if isLeapYear y then 29 else 28)
  else if m = 4 ∨ m = 6 ∨ m = 9 ∨ m = 11 then 30
  else 31

/-- Modelled from the spec: chrono NaiveDate::from_ymd, which panics on an
invalid calendar date. -/
def from_ymd (y : Int) (m d : Nat) : Run NaiveD :=
  if 1 ≤ m ∧ m ≤ 12 ∧ 1 ≤ d ∧ d ≤ daysInMonth y m then Run.ok { year := y, month := m, day := d }
  else Run.abort "invalid or out-of-range date"

/-- Embedding of struct Header (src/lib.rs). -/
structure Header where
  db_type : DBFType
  last_update : NaiveD
  records_count : Nat
  first_record_position : Nat
  record_len : Nat
  table_flag : Nat
  codepage : String
deriving DecidableEq, Repr

/-- Embedding of read_header (src/lib.rs). The 32 bytes read from the start
of the file are the list argument; a short read surfaces as the typed
io::Result error of read_exact, while an invalid update date or an unmapped
codepage byte hits a panic in the source. -/
def read_header (common : List Nat) (mapper : Nat → Except String String) : Run Header :=
  if common.length < 32 then Run.err "failed to fill whole buffer"
  else
    match from_ymd (byteAt common 1) (byteAt common 2) (byteAt common 3) with
    | Run.err m => Run.err m
    | Run.abort m => Run.abort m
    | Run.ok lastUpdate =>
      match mapper (byteAt common 29) with
      | Except.error msg => Run.abort msg
      | Except.ok cp =>
        Run.ok {
          db_type := DBFType.parse_type (byteAt common 0)
          last_update := lastUpdate
          records_count := leNat ((common.drop 4).take 4)
          first_record_position := leNat ((common.drop 8).take 2)
          record_len := leNat ((common.drop 10).take 2)
          table_flag := byteAt common 28
          codepage := cp }

/-- Result kind of the external encoding_rs decoder (CoderResult). -/
inductive CoderResult where
  | inputEmpty
  | outputFull
deriving DecidableEq, Repr

/-- Model of the external text decoder collaborator: from input bytes it
produces the result kind, the number of input bytes consumed, and the
decoded text (decode_to_string of encoding_rs). -/
def Dec : Type := List Nat → CoderResult × Nat × String

/-- A total single-byte decoder instance (consumes every input byte). -/
def latin1Dec : Dec := fun bs => (CoderResult.inputEmpty, bs.length, String.mk (bs.map Char.ofNat))

/-- A decoder instance whose output space runs out after five bytes, so it
consumes at most five input bytes (legitimate encoding_rs behaviour when the
pre-allocated output capacity is too small for the decoded text). -/
def cappedDec : Dec := fun bs =>
  if bs.length ≤ 5 then (CoderResult.inputEmpty, bs.length, String.mk (bs.map Char.ofNat))
  else (CoderResult.outputFull, 5, String.mk ((bs.take 5).map Char.ofNat))

/-- Embedding of struct Field (src/foxpro/mod.rs); named DbfField because
Field is taken by the ambient mathematics library. The Option unit flags of
the source are modelled by their is_some projection as Bool. -/
structure DbfField where
  name : String
  datatype : Nat
  offset : Nat
  size : Nat
  precision : Nat
  next_id : Nat
  step : Nat
  nullable : Bool
  system : Bool
  autoincrement : Bool
  binary : Bool
deriving DecidableEq, Repr

/-- Embedding of the FieldMeta id_step default method (src/lib.rs trait
FieldMeta, not overridden by the foxpro Field implementation). -/
def DbfField.id_step (f : DbfField) : Nat := if f.autoincrement then 1 else 0

/-- Embedding of read_field_meta (src/foxpro/mod.rs): parse one 32-byte
descriptor record; a 0x0D first byte is the terminator (None), a name
decode that does not consume exactly 10 bytes panics. -/
def read_field_meta (bytes : List Nat) (dec : Dec) : Run (Option DbfField) :=
  if byteAt bytes 0 == 0x0D then Run.ok none
  else
    let r := dec (bytes.take 10)
    if r.2.1 ≠ 10 then
      match r.1 with
      | CoderResult.inputEmpty => Run.abort "Fail to read field name from meta data"
      | CoderResult.outputFull => Run.abort "Insufficient field name length allocated"
    else Run.ok (some {
      name := r.2.2
      datatype := byteAt bytes 11
      offset := leNat ((bytes.drop 12).take 4)
      size := byteAt bytes 16
      precision := byteAt bytes 17
      next_id := leNat ((bytes.drop 19).take 4)
      step := byteAt bytes 24
      system := byteAt bytes 18 &&& 0x01 == 1
      nullable := byteAt bytes 18 &&& 0x02 == 1
      binary := byteAt bytes 18 &&& 0x04 == 4
      autoincrement := byteAt bytes 18 &&& 0x0C == 0x0C })

/-- Descriptor scan loop of read_fields (src/foxpro/mod.rs) made explicit in
the starting byte position: read 32-byte records from pos, parse each with
read_field_meta, stop at the terminator record; a short read panics
(read_exact followed by expect in the source). The fuel argument only
bounds the recursion for Lean; every iteration advances pos by 32 and
requires pos + 32 bytes of file, so with fuel at least file.length / 32 + 1
the fuel-exhausted branch is unreachable (and is made to coincide with the
short-read panic regardless). -/
def readFieldsLoop (file : List Nat) (dec : Dec) : Nat → Nat → List DbfField →
    Run (List DbfField)
  | _, 0, _ => Run.abort "Fail to read file"
  | pos, fuel + 1, acc =>
    if file.length < pos + 32 then Run.abort "Fail to read file"
    else
      match read_field_meta ((file.drop pos).take 32) dec with
      | Run.abort m => Run.abort m
      | Run.err m => Run.err m
      | Run.ok none => Run.ok acc
      | Run.ok (some f) => readFieldsLoop file dec (pos + 32) fuel (acc ++ [f])

/-- Embedding of read_fields (src/foxpro/mod.rs): the source seeks to
absolute offset 33 before scanning descriptor records. The decoder built
from the header codepage is the dec parameter. -/
def read_fields (file : List Nat) (dec : Dec) : Run (List DbfField) :=
  readFieldsLoop file dec 33 (file.length / 32 + 1) []

/-- Statement of the spec's descriptor location (section 4.3 of the spec):
parsing starts at byte offset 32, immediately following the 32-byte header.
Written from the spec wording, for comparison against read_fields. -/
def readFieldsSpecStart (file : List Nat) (dec : Dec) : Run (List DbfField) :=
  readFieldsLoop file dec 32 (file.length / 32 + 1) []

/-- Rust formatting of an integer with the 04 zero-padding directive: pad
with zeros between the sign and the digits up to a total width of 4. -/
def pad04 (n : Int) : String :=
  let digits := toString n.natAbs
  let sign := if n < 0 then "-" else ""
  sign ++ String.mk (List.replicate (4 - (sign.length + digits.length)) '0') ++ digits

/-- Embedding of CurrencyField::from_record_bytes (src/foxpro/mod.rs):
slice the record at the field offset/size, read an i64 little-endian raw
value, render quotient and remainder by 10000. Rust i64 division and
remainder truncate toward zero, hence tdiv/tmod. -/
def CurrencyField.from_record_bytes (record : List Nat) (meta : DbfField) : Run String :=
  if meta.offset + meta.size ≤ record.length then
    let field := (record.drop meta.offset).take meta.size
    if field.length = 8 then
      let raw := i64le field
      Run.ok (toString (raw.tdiv 10000) ++ "." ++ pad04 (raw.tmod 10000))
    else Run.abort "called Option unwrap on a None value"
  else Run.abort "byte slice index out of range"

/-- Statement of the spec's Currency rendering (section 4.4 of the spec):
integer part is the truncated quotient raw / 10000, fraction is the
remainder raw mod 10000 rendered with the 04 padding directive. Written
from the spec wording, for comparison against the source embedding. -/
def currencyRenderSpec (raw : Int) : String :=
  toString (raw.tdiv 10000) ++ "." ++ pad04 (raw.tmod 10000)

/-- Embedding of CharField::from_record_bytes (src/foxpro/mod.rs): slice
the record at the field offset/size and decode through the codepage
decoder; a decode that does not consume exactly size bytes panics. -/
def CharField.from_record_bytes (record : List Nat) (meta : DbfField) (dec : Dec) :
    Run String :=
  if meta.offset + meta.size ≤ record.length then
    let field := (record.drop meta.offset).take meta.size
    let r := dec field
    if r.2.1 ≠ meta.size then
      match r.1 with
      | CoderResult.inputEmpty => Run.abort "Insufficient record data"
      | CoderResult.outputFull => Run.abort "Insufficient buffer to store converted string"
    else Run.ok r.2.2
  else Run.abort "byte slice index out of range"

/-- Embedding of the ConversionField get implementation of RawDateField
(src/foxpro/mod.rs): 8-byte little-endian day count, truncated to i32,
converted with chrono from_num_days_from_ce. -/
def RawDateField.get (bytes : List Nat) : Run NaiveD :=
  if bytes.length = 8 then Run.ok (fromDaysCE (wrap32 (i64le bytes)))
  else Run.abort "Fail to convert to date"

/-- Embedding of the ConversionField set implementation of RawDateField
(src/foxpro/mod.rs): chrono num_days_from_ce widened to i64 and stored as
8 little-endian bytes. -/
def RawDateField.set (value : NaiveD) : List Nat := i64ToLeBytes (toDaysCE value)

/-- Embedding of DateTimeField::from_record_bytes (src/foxpro/mod.rs):
split the field slice at the midpoint, first half is a little-endian
Julian day shifted by 1721426, second half little-endian milliseconds
since midnight, reduced to hour/minute/second with the modulo bounds. -/
def DateTimeField.from_record_bytes (record : List Nat) (meta : DbfField) : Run NaiveDT :=
  if meta.offset + meta.size ≤ record.length then
    let date_field := (record.drop meta.offset).take (meta.size / 2)
    let time_field := (record.drop (meta.offset + meta.size / 2)).take (meta.size - meta.size / 2)
    if date_field.length = 4 ∧ time_field.length = 4 then
      let days := i32le date_field - 1721426
      let ms := leNat time_field
      Run.ok { date := fromDaysCE days, hour := ms / 3600000 % 24,
               minute := ms / 60000 % 60, second := ms / 1000 % 60 }
    else Run.abort "could not convert slice to array"
  else Run.abort "byte slice index out of range"

/-- Statement of the spec's DateTime layout (section 4.4 of the spec):
4-byte little-endian day count offset by 1721426, then 4-byte little-endian
milliseconds since midnight with the hour/minute/second modulo formulas.
Written from the spec wording, for comparison against the source embedding. -/
def dateTimeSpecOf (dateBytes timeBytes : List Nat) : NaiveDT :=
  let ms := leNat timeBytes
  { date := fromDaysCE (i32le dateBytes - 1721426), hour := ms / 3600000 % 24,
    minute := ms / 60000 % 60, second := ms / 1000 % 60 }

example : CurrencyField.from_record_bytes
    [97, 98, 1, 0, 0, 0, 0, 0, 0, 0]
    { name := "m", datatype := 89, offset := 2, size := 8, precision := 0, next_id := 0,
      step := 1, nullable := false, system := false, autoincrement := false, binary := false }
    = Run.ok "0.0001" := by decide

/-- Embedding of TableIter (src/lib.rs): a cursor into a table, the table
itself being its row list. -/
structure TableIter (ρ : Type) where
  i : Nat
  table : List ρ
deriving DecidableEq, Repr

/-- Embedding of the Iterator next implementation of TableIter: return the
row at the cursor and advance the cursor by one, or None past the end. -/
def TableIter.next {ρ : Type} (s : TableIter ρ) : Option ρ × TableIter ρ :=
  if h : s.i < s.table.length then
    (some (s.table.get ⟨s.i, h⟩), { s with i := s.i + 1 })
  else (none, s)

/-- Embedding of the Iterator nth override of TableIter (src/lib.rs): jump
the cursor directly to i + n and return that row; the source sets the
cursor to the returned position itself. -/
def TableIter.nth {ρ : Type} (s : TableIter ρ) (n : Nat) : Option ρ × TableIter ρ :=
  if h : s.i + n < s.table.length then
    (some (s.table.get ⟨s.i + n, h⟩), { s with i := s.i + n })
  else (none, s)

/-- Repeated next: drive the iterator k times, returning the last result
and the final state (the reference semantics of Iterator::nth, which must
behave as n + 1 successive next calls). -/
def TableIter.nextTimes {ρ : Type} : Nat → TableIter ρ → Option ρ × TableIter ρ
  | 0, s => (none, s)
  | 1, s => s.next
  | k + 2, s => TableIter.nextTimes (k + 1) s.next.2

/-- Embedding of JoinTableIter (src/lib.rs): left iterator, right table,
right iterator, and the left row currently being scanned. -/
structure JoinIter (ρ1 ρ2 : Type) where
  t1 : TableIter ρ1
  table2 : List ρ2
  t2 : TableIter ρ2
  r1 : Option ρ1

/-- Inner while loop of JoinTableIter::next: scan the right iterator until
the predicate yields a value or the right side is exhausted. -/
def innerScan {ρ1 ρ2 ρ3 : Type} (c : ρ1 → ρ2 → Option ρ3) (l : ρ1) (t2 : TableIter ρ2) :
    Option ρ3 × TableIter ρ2 :=
  if h : t2.i < t2.table.length then
    match c l (t2.table.get ⟨t2.i, h⟩) with
    | some r3 => (some r3, { t2 with i := t2.i + 1 })
    | none => innerScan c l { t2 with i := t2.i + 1 }
  else (none, t2)
termination_by t2.table.length - t2.i
decreasing_by simp_wf; omega

/-- Outer while loop of JoinTableIter::next: for the current left row scan
the right side; when the right side is exhausted pull the next left row
and restart the right iterator. -/
def joinLoop {ρ1 ρ2 ρ3 : Type} (c : ρ1 → ρ2 → Option ρ3) (t1 : TableIter ρ1)
    (table2 : List ρ2) (t2 : TableIter ρ2) (r1 : Option ρ1) :
    Option ρ3 × JoinIter ρ1 ρ2 :=
  match r1 with
  | none => (none, { t1 := t1, table2 := table2, t2 := t2, r1 := none })
  | some l =>
    match innerScan c l t2 with
    | (some r3, t2') => (some r3, { t1 := t1, table2 := table2, t2 := t2', r1 := some l })
    | (none, _) =>
      if h : t1.i < t1.table.length then
        joinLoop c { t1 with i := t1.i + 1 } table2 { i := 0, table := table2 }
          (some (t1.table.get ⟨t1.i, h⟩))
      else (none, { t1 := t1, table2 := table2, t2 := { i := 0, table := table2 }, r1 := none })
termination_by t1.table.length - t1.i
decreasing_by simp_wf; omega

/-- Embedding of JoinTableIter::next (src/lib.rs): pull a left row first if
none is current, then run the nested scan loops. -/
def JoinIter.next {ρ1 ρ2 ρ3 : Type} (c : ρ1 → ρ2 → Option ρ3) (s : JoinIter ρ1 ρ2) :
    Option ρ3 × JoinIter ρ1 ρ2 :=
  if s.r1.isNone then
    let p := s.t1.next
    joinLoop c p.2 s.table2 s.t2 p.1
  else joinLoop c s.t1 s.table2 s.t2 s.r1

/-- Collecting the join iterator into a list (FromIterator::from_iter in
the source); fuel bounds the number of yielded rows and is instantiated
with a proven-sufficient bound in join. -/
def joinCollect {ρ1 ρ2 ρ3 : Type} (c : ρ1 → ρ2 → Option ρ3) :
    Nat → JoinIter ρ1 ρ2 → List ρ3
  | 0, _ => []
  | fuel + 1, s =>
    match JoinIter.next c s with
    | (none, _) => []
    | (some r3, s') => r3 :: joinCollect c fuel s'

/-- Embedding of the free function join (src/lib.rs): build the iterator
over both tables and collect every yielded row. -/
def join {ρ1 ρ2 ρ3 : Type} (table1 : List ρ1) (table2 : List ρ2)
    (c : ρ1 → ρ2 → Option ρ3) : List ρ3 :=
  joinCollect c (table1.length * table2.length + 1)
    { t1 := { i := 0, table := table1 }, table2 := table2,
      t2 := { i := 0, table := table2 }, r1 := none }

/-- Statement of the spec's join semantics (section 4.7 of the spec): for
each left row in order, every right row in order, keeping the predicate
hits. Written from the spec wording, for comparison against join. -/
def joinSpec {ρ1 ρ2 ρ3 : Type} (table1 : List ρ1) (table2 : List ρ2)
    (c : ρ1 → ρ2 → Option ρ3) : List ρ3 :=
  table1.flatMap (fun l => table2.filterMap (c l))

/-- Rows still to be yielded by the join iterator from a given state: the
matches left in the current right scan, then full right scans for every
left row not yet pulled. -/
def joinRem {ρ1 ρ2 ρ3 : Type} (c : ρ1 → ρ2 → Option ρ3) (s : JoinIter ρ1 ρ2) : List ρ3 :=
  (match s.r1 with
   | some l => (s.t2.table.drop s.t2.i).filterMap (c l)
   | none => []) ++
  (s.t1.table.drop s.t1.i).flatMap (fun l => s.table2.filterMap (c l))

theorem filterMap_drop_step {α β : Type} (f : α → Option β) (tb : List α) (i : Nat)
    (h : i < tb.length) :
    (tb.drop i).filterMap f =
      (match f tb[i] with
       | none => (tb.drop (i + 1)).filterMap f
       | some b => b :: (tb.drop (i + 1)).filterMap f) := by
  rw [List.drop_eq_getElem_cons h, List.filterMap_cons]
  cases f tb[i] <;> rfl

theorem innerScan_spec {ρ1 ρ2 ρ3 : Type} (c : ρ1 → ρ2 → Option ρ3) (l : ρ1)
    (t2 : TableIter ρ2) :
    match innerScan c l t2 with
    | (none, _) => (t2.table.drop t2.i).filterMap (c l) = []
    | (some r, t2') => (t2.table.drop t2.i).filterMap (c l)
        = r :: (t2'.table.drop t2'.i).filterMap (c l) := by
  induction t2 using innerScan.induct (c := c) (l := l) with
  | case1 x h r3 hc =>
    simp only [List.get_eq_getElem] at hc
    have hstep : innerScan c l x = (some r3, { i := x.i + 1, table := x.table }) := by
      rw [innerScan]
      simp [dif_pos h, hc]
    simp only [hstep]
    rw [filterMap_drop_step (c l) x.table x.i h, hc]
  | case2 x h hc ih =>
    simp only [List.get_eq_getElem] at hc
    have hstep : innerScan c l x = innerScan c l { i := x.i + 1, table := x.table } := by
      rw [innerScan]
      simp [dif_pos h, hc]
    rw [hstep]
    rcases hrec : innerScan c l { i := x.i + 1, table := x.table } with ⟨o, w⟩
    rw [hrec] at ih
    cases o with
    | none =>
      simp only at ih ⊢
      rw [filterMap_drop_step (c l) x.table x.i h, hc]
      exact ih
    | some r =>
      simp only at ih ⊢
      rw [filterMap_drop_step (c l) x.table x.i h, hc]
      exact ih
  | case3 x h =>
    have hstep : innerScan c l x = (none, x) := by
      rw [innerScan]
      simp [dif_neg h]
    simp only [hstep]
    rw [List.drop_eq_nil_of_le (by omega)]
    simp

theorem joinLoop_spec {ρ1 ρ2 ρ3 : Type} (c : ρ1 → ρ2 → Option ρ3) (t1 : TableIter ρ1)
    (table2 : List ρ2) (t2 : TableIter ρ2) (r1 : Option ρ1)
    (hnone : r1 = none → t1.table.length ≤ t1.i) :
    match joinLoop c t1 table2 t2 r1 with
    | (none, _) =>
      (match r1 with
       | some l => (t2.table.drop t2.i).filterMap (c l)
       | none => []) ++
      (t1.table.drop t1.i).flatMap (fun l => table2.filterMap (c l)) = []
    | (some r, s') =>
      (match r1 with
       | some l => (t2.table.drop t2.i).filterMap (c l)
       | none => []) ++
      (t1.table.drop t1.i).flatMap (fun l => table2.filterMap (c l))
        = r :: joinRem c s' ∧ s'.r1.isSome = true ∧ s'.t1.table = t1.table ∧
          s'.table2 = table2 := by
  induction t1, table2, t2, r1 using joinLoop.induct (c := c) with
  | case1 t1 table2 t2 =>
    have hstep : joinLoop c t1 table2 t2 none
        = (none, ⟨t1, table2, t2, none⟩) := by
      rw [joinLoop]
    simp only [hstep]
    have h := hnone rfl
    rw [List.drop_eq_nil_of_le h]
    simp
  | case2 t1 table2 t2 l r3 t2' hscan =>
    have hstep : joinLoop c t1 table2 t2 (some l)
        = (some r3, ⟨t1, table2, t2', some l⟩) := by
      rw [joinLoop]
      simp [hscan]
    have hs := innerScan_spec c l t2
    rw [hscan] at hs
    simp only at hs
    simp only [hstep]
    refine ⟨?_, by simp, by simp, by simp⟩
    rw [hs]
    simp [joinRem]
  | case3 t1 table2 t2 l t2' hscan h ih =>
    have hstep : joinLoop c t1 table2 t2 (some l)
        = joinLoop c { i := t1.i + 1, table := t1.table } table2 { i := 0, table := table2 }
            (some (t1.table.get ⟨t1.i, h⟩)) := by
      rw [joinLoop]
      simp [hscan, dif_pos h]
    have hs := innerScan_spec c l t2
    rw [hscan] at hs
    simp only at hs
    rw [hstep]
    have ihx := ih (by simp)
    rcases hrec : joinLoop c { i := t1.i + 1, table := t1.table } table2
        { i := 0, table := table2 } (some (t1.table.get ⟨t1.i, h⟩)) with ⟨o, s'⟩
    rw [hrec] at ihx
    have hdrop1 : t1.table.drop t1.i = t1.table.get ⟨t1.i, h⟩ :: t1.table.drop (t1.i + 1) := by
      simp only [List.get_eq_getElem]
      exact List.drop_eq_getElem_cons h
    cases o with
    | none =>
      simp only at ihx ⊢
      rw [hs, List.nil_append, hdrop1, List.flatMap_cons]
      simp only [List.drop_zero] at ihx
      simpa using ihx
    | some r =>
      simp only at ihx ⊢
      obtain ⟨iheq, ihsome, iht1, iht2⟩ := ihx
      refine ⟨?_, ihsome, iht1, iht2⟩
      rw [hs, List.nil_append, hdrop1, List.flatMap_cons]
      simp only [List.drop_zero] at iheq
      simpa using iheq
  | case4 t1 table2 t2 l t2' hscan h =>
    have hstep : joinLoop c t1 table2 t2 (some l)
        = (none, ⟨t1, table2, ⟨0, table2⟩, none⟩) := by
      rw [joinLoop]
      simp [hscan, dif_neg h]
    have hs := innerScan_spec c l t2
    rw [hscan] at hs
    simp only at hs
    simp only [hstep]
    rw [hs, List.nil_append, List.drop_eq_nil_of_le (by omega)]
    simp

theorem joinNext_spec {ρ1 ρ2 ρ3 : Type} (c : ρ1 → ρ2 → Option ρ3) (s : JoinIter ρ1 ρ2)
    (hinv : s.r1 = none → s.t2.i = 0 ∧ s.t2.table = s.table2) :
    match JoinIter.next c s with
    | (none, _) => joinRem c s = []
    | (some r, s') => joinRem c s = r :: joinRem c s' ∧
        (s'.r1 = none → s'.t2.i = 0 ∧ s'.t2.table = s'.table2) := by
  rcases s with ⟨t1, table2, t2, r1⟩
  cases r1 with
  | some l =>
    have hstep : JoinIter.next c ⟨t1, table2, t2, some l⟩
        = joinLoop c t1 table2 t2 (some l) := by
      simp [JoinIter.next]
    rw [hstep]
    have hl := joinLoop_spec c t1 table2 t2 (some l) (by simp)
    rcases hrec : joinLoop c t1 table2 t2 (some l) with ⟨o, s'⟩
    rw [hrec] at hl
    cases o with
    | none =>
      simp only at hl ⊢
      simpa [joinRem] using hl
    | some r =>
      simp only at hl ⊢
      obtain ⟨heq, hsome, _, _⟩ := hl
      refine ⟨by simpa [joinRem] using heq, ?_⟩
      intro hno
      rw [hno] at hsome
      simp at hsome
  | none =>
    obtain ⟨hti, htt⟩ := hinv rfl
    by_cases h : t1.i < t1.table.length
    · have hstep : JoinIter.next c ⟨t1, table2, t2, none⟩
          = joinLoop c { i := t1.i + 1, table := t1.table } table2 t2
              (some (t1.table.get ⟨t1.i, h⟩)) := by
        simp [JoinIter.next, TableIter.next, dif_pos h]
      rw [hstep]
      have hl := joinLoop_spec c { i := t1.i + 1, table := t1.table } table2 t2
          (some (t1.table.get ⟨t1.i, h⟩)) (by simp)
      have hdrop1 : t1.table.drop t1.i
          = t1.table.get ⟨t1.i, h⟩ :: t1.table.drop (t1.i + 1) := by
        simp only [List.get_eq_getElem]
        exact List.drop_eq_getElem_cons h
      rcases hrec : joinLoop c { i := t1.i + 1, table := t1.table } table2 t2
          (some (t1.table.get ⟨t1.i, h⟩)) with ⟨o, s'⟩
      rw [hrec] at hl
      cases o with
      | none =>
        simp only at hl ⊢
        rw [joinRem]
        simp only [List.nil_append, hdrop1, List.flatMap_cons]
        rw [hti, htt] at hl
        simpa using hl
      | some r =>
        simp only at hl ⊢
        obtain ⟨heq, hsome, _, _⟩ := hl
        constructor
        · rw [joinRem]
          simp only [List.nil_append, hdrop1, List.flatMap_cons]
          rw [hti, htt] at heq
          simpa using heq
        · intro hno
          rw [hno] at hsome
          simp at hsome
    · have hstep : JoinIter.next c ⟨t1, table2, t2, none⟩
          = (none, ⟨t1, table2, t2, none⟩) := by
        simp [JoinIter.next, TableIter.next, dif_neg h]
        rw [joinLoop]
      rw [hstep]
      simp only [joinRem]
      rw [List.drop_eq_nil_of_le (by omega)]
      simp

theorem joinCollect_spec {ρ1 ρ2 ρ3 : Type} (c : ρ1 → ρ2 → Option ρ3) :
    ∀ fuel (s : JoinIter ρ1 ρ2), (joinRem c s).length < fuel →
    (s.r1 = none → s.t2.i = 0 ∧ s.t2.table = s.table2) →
    joinCollect c fuel s = joinRem c s := by
  intro fuel
  induction fuel with
  | zero => intro s h hinv; omega
  | succ fuel ih =>
    intro s hlen hinv
    have hn := joinNext_spec c s hinv
    rcases hrec : JoinIter.next c s with ⟨o, s'⟩
    rw [hrec] at hn
    cases o with
    | none =>
      simp only at hn
      rw [joinCollect, hrec]
      exact hn.symm
    | some r =>
      simp only at hn
      obtain ⟨heq, hinv'⟩ := hn
      rw [joinCollect, hrec]
      show r :: joinCollect c fuel s' = joinRem c s
      rw [ih s' (by rw [heq] at hlen; simp at hlen; omega) hinv', heq]

theorem joinSpec_length {ρ1 ρ2 ρ3 : Type} (c : ρ1 → ρ2 → Option ρ3)
    (table1 : List ρ1) (table2 : List ρ2) :
    (joinSpec table1 table2 c).length ≤ table1.length * table2.length := by
  induction table1 with
  | nil => simp [joinSpec]
  | cons a l ih =>
    simp only [joinSpec, List.flatMap_cons, List.length_append, List.length_cons] at ih ⊢
    have hf : (table2.filterMap (c a)).length ≤ table2.length := List.length_filterMap_le _ _
    have hsm : (l.length + 1) * table2.length = l.length * table2.length + table2.length := by
      ring
    omega

theorem join_eq_joinSpec {ρ1 ρ2 ρ3 : Type} (c : ρ1 → ρ2 → Option ρ3)
    (table1 : List ρ1) (table2 : List ρ2) :
    join table1 table2 c = joinSpec table1 table2 c := by
  have hrem : joinRem c ⟨⟨0, table1⟩, table2, ⟨0, table2⟩, none⟩
      = joinSpec table1 table2 c := by
    simp [joinRem, joinSpec]
  have hb := joinSpec_length c table1 table2
  rw [join, joinCollect_spec c _ _ (by rw [hrem]; omega) (by intro; exact ⟨rfl, rfl⟩), hrem]

theorem leNat_lt {bs : List Nat} (hb : ∀ b ∈ bs, b < 256) : leNat bs < 2 ^ (8 * bs.length) := by
  induction bs with
  | nil => simp [leNat]
  | cons b rest ih =>
    have hbb : b < 256 := hb b (by simp)
    have hrest := ih (fun x hx => hb x (by simp [hx]))
    simp only [leNat, List.length_cons]
    have hpow : 2 ^ (8 * (rest.length + 1)) = 2 ^ (8 * rest.length) * 256 := by
      rw [Nat.mul_add, Nat.pow_add]
    omega

theorem natLeBytes_leNat {bs : List Nat} (hb : ∀ b ∈ bs, b < 256) :
    natLeBytes bs.length (leNat bs) = bs := by
  induction bs with
  | nil => simp [natLeBytes]
  | cons b rest ih =>
    have hbb : b < 256 := hb b (by simp)
    have hrest := ih (fun x hx => hb x (by simp [hx]))
    simp only [List.length_cons, natLeBytes, leNat]
    have hmod : (b + 256 * leNat rest) % 256 = b := by omega
    have hdiv : (b + 256 * leNat rest) / 256 = leNat rest := by omega
    rw [hmod, hdiv, hrest]

theorem i64ToLeBytes_i64le {bs : List Nat} (hlen : bs.length = 8)
    (hb : ∀ b ∈ bs, b < 256) : i64ToLeBytes (i64le bs) = bs := by
  have hlt : leNat bs < 2 ^ 64 := by
    have := leNat_lt hb
    rw [hlen] at this
    exact this
  have hrt : natLeBytes 8 (leNat bs) = bs := by
    rw [← hlen]
    exact natLeBytes_leNat hb
  rw [i64ToLeBytes, i64le]
  by_cases h : leNat bs < 2 ^ 63
  · simp only [if_pos h]
    have hmod : ((leNat bs : Int)) % 2 ^ 64 = (leNat bs : Int) := by omega
    rw [hmod]
    rw [Int.toNat_ofNat]
    exact hrt
  · simp only [if_neg h]
    have hmod : ((leNat bs : Int) - 2 ^ 64) % 2 ^ 64 = (leNat bs : Int) := by omega
    rw [hmod, Int.toNat_ofNat]
    exact hrt

theorem wrap32_eq {v : Int} (h1 : -(2 ^ 31) ≤ v) (h2 : v < 2 ^ 31) : wrap32 v = v := by
  rw [wrap32]
  omega

/-- Helper building a DbfField metadata value with a given offset and size
(remaining members as in the repository test fixtures). -/
def metaAt (off sz : Nat) : DbfField :=
  { name := "f", datatype := 0, offset := off, size := sz, precision := 0, next_id := 0,
    step := 1, nullable := false, system := false, autoincrement := false, binary := false }

/-- Row type of the join/select test fixtures: a name and the raw i64 cost
value (the f64 cost of the tests is raw / 10000, and two costs are equal
exactly when the raw values are). -/
structure CostRec where
  name : String
  cost : Int
deriving DecidableEq, Repr

/-- Joined row type of the join test fixtures. -/
structure JoinedRec where
  name1 : String
  name2 : String
deriving DecidableEq, Repr

/-- The equality-on-cost join predicate of the repository join tests. -/
def costEqJoin (r1 r2 : CostRec) : Option JoinedRec :=
  if r1.cost == r2.cost then some { name1 := r1.name, name2 := r2.name } else none

/-- Left table of the join tests (records1). -/
def costTable1 : List CostRec := [{ name := "ab", cost := 1 }, { name := "cd", cost := 2 }]

/-- Right table of the join tests (records2). -/
def costTable2 : List CostRec := [{ name := "gg", cost := 1 }, { name := "ff", cost := 2 }]

/-- A right table sharing no cost value with costTable1. -/
def costTableDisjoint : List CostRec :=
  [{ name := "xx", cost := 3 }, { name := "yy", cost := 4 }]

/-- C2: join(left, right, predicate) yields exactly the rows predicate(l, r)
over every left row in table order paired with every right row in table
order (left-row-major, right-row-minor); in particular joining the two
2-row cost tables on cost equality yields exactly the matching pairs in
that order, and a pair of tables with no match joins to the empty list. -/
theorem C2_join_nested_loop :
    (∀ (ρ1 ρ2 ρ3 : Type) (c : ρ1 → ρ2 → Option ρ3) (t1 : List ρ1) (t2 : List ρ2),
      join t1 t2 c = t1.flatMap (fun l => t2.filterMap (c l))) ∧
    join costTable1 costTable2 costEqJoin
      = [{ name1 := "ab", name2 := "gg" }, { name1 := "cd", name2 := "ff" }] ∧
    join costTable1 costTableDisjoint costEqJoin = [] := by
  refine ⟨fun ρ1 ρ2 ρ3 c t1 t2 => join_eq_joinSpec c t1 t2, ?_, ?_⟩ <;>
    rw [join_eq_joinSpec] <;> decide

set_option maxRecDepth 2000 in
/-- C3: DBFType::parse_type is a total function on all 256 byte values that
never fails: the thirteen listed bytes map to their named variants and every
other byte value maps to Undefined rather than an error. -/
theorem C3_parse_type_total :
    ∀ b : Fin 256, DBFType.parse_type b.val = dbfTypeSpecTable b.val := by decide

/-- C6: Currency materialization reads the 8 field bytes as a signed
little-endian integer raw and renders it as the truncated quotient by 10000,
a dot, and the remainder zero-padded to 4 digits; the value 1 renders as
0.0001. -/
theorem C6_currency_render :
    (∀ (record : List Nat) (meta : DbfField), meta.size = 8 →
      meta.offset + meta.size ≤ record.length →
      CurrencyField.from_record_bytes record meta
        = Run.ok (currencyRenderSpec (i64le ((record.drop meta.offset).take meta.size)))) ∧
    CurrencyField.from_record_bytes [1, 0, 0, 0, 0, 0, 0, 0] (metaAt 0 8) = Run.ok "0.0001" ∧
    currencyRenderSpec 1 = "0.0001" := by
  refine ⟨?_, by decide, by decide⟩
  intro record meta hsize hbound
  have hflen : ((record.drop meta.offset).take meta.size).length = 8 := by
    simp only [List.length_take, List.length_drop]
    omega
  simp only [CurrencyField.from_record_bytes, currencyRenderSpec]
  rw [if_pos hbound, if_pos hflen]

/-- Witness for C6 at the repository test record (currency at offset 2). -/
theorem C6_currency_render_witness :
    CurrencyField.from_record_bytes [97, 98, 1, 0, 0, 0, 0, 0, 0, 0] (metaAt 2 8)
      = Run.ok (currencyRenderSpec (i64le ((([97, 98, 1, 0, 0, 0, 0, 0, 0, 0] : List Nat).drop 2).take 8))) :=
  C6_currency_render.1 [97, 98, 1, 0, 0, 0, 0, 0, 0, 0] (metaAt 2 8) (by decide) (by decide)

/-- The results of every FieldMeta trait operation on a foxpro Field:
nullable, autoincrement, datatype_flag, name, rec_offset, size, precision,
next_id and id_step. -/
def fieldMetaObs (f : DbfField) : Bool × Bool × Nat × String × Nat × Nat × Nat × Nat × Nat :=
  (f.nullable, f.autoincrement, f.datatype, f.name, f.offset, f.size, f.precision,
    f.next_id, f.id_step)

/-- C10: id_step returns 1 exactly when the autoincrement flag is set and 0
otherwise; descriptor parsing stores byte 24 in the step member, yet every
FieldMeta operation result is unchanged under any value of step, so no
operation ever returns the parsed step value. -/
theorem C10_id_step_ignores_step :
    (∀ f : DbfField, f.id_step = if f.autoincrement then 1 else 0) ∧
    (∀ (bytes : List Nat) (dec : Dec) (f : DbfField),
      read_field_meta bytes dec = Run.ok (some f) → f.step = byteAt bytes 24) ∧
    (∀ (f : DbfField) (s' : Nat), fieldMetaObs { f with step := s' } = fieldMetaObs f) := by
  refine ⟨fun f => rfl, ?_, fun f s' => rfl⟩
  intro bytes dec f h
  simp only [read_field_meta] at h
  split at h
  · simp at h
  · split at h
    · split at h <;> simp at h
    · injection h with h2
      injection h2 with h3
      rw [← h3]

/-- A sample 32-byte descriptor: name AB, type C, offset 3, size 2,
flags byte 12 (binary and autoincrement), next id 9, step byte 5. -/
def descSample : List Nat :=
  [65, 66, 0, 0, 0, 0, 0, 0, 0, 0, 0, 67, 3, 0, 0, 0, 2, 0, 12, 9, 0, 0, 0, 0, 5,
   0, 0, 0, 0, 0, 0, 0]

/-- Witness for C10: the descriptor parse of descSample stores its byte 24
in step. -/
theorem C10_id_step_ignores_step_witness :
    ∃ f, read_field_meta descSample latin1Dec = Run.ok (some f) ∧ f.step = byteAt descSample 24 := by
  refine ⟨_, rfl, ?_⟩
  exact C10_id_step_ignores_step.2.1 descSample latin1Dec _ rfl

/-- A 32-byte descriptor whose flags byte (byte 18) is exactly 0x02, the
nullable bit. -/
def descNullable : List Nat :=
  [65, 66, 0, 0, 0, 0, 0, 0, 0, 0, 0, 67, 0, 0, 0, 0, 2, 0, 2, 0, 0, 0, 0, 0, 5,
   0, 0, 0, 0, 0, 0, 0]

/-- C5 evaluation: in the parsed field of a descriptor with flags byte 0x02
the nullable flag is false although the 0x02 bit is set, because the source
compares flag bitand 0x02 against 1, which never holds; the other three
flag computations are also evaluated at this descriptor. -/
theorem C5_nullable_flag_eval :
    ∃ f, read_field_meta descNullable latin1Dec = Run.ok (some f) ∧
      byteAt descNullable 18 &&& 0x02 = 0x02 ∧ f.nullable = false ∧
      f.system = false ∧ f.binary = false ∧ f.autoincrement = false := by
  refine ⟨_, rfl, by decide, by decide, by decide, by decide, by decide⟩

/-- A fresh iterator over a 2-row table. -/
def twoRowIter : TableIter Nat := { i := 0, table := [10, 20] }

/-- C9 evaluation: nth 0 and one next call return the same element, but the
following next repeats that element after nth while it returns the next
element after a true next, because the nth override leaves the cursor on
the returned element instead of one past it. -/
theorem C9_nth_cursor_eval :
    (twoRowIter.nth 0).1 = some 10 ∧
    (TableIter.nextTimes 1 twoRowIter).1 = some 10 ∧
    ((twoRowIter.nth 0).2.next).1 = some 10 ∧
    ((TableIter.nextTimes 1 twoRowIter).2.next).1 = some 20 ∧
    ((twoRowIter.nth 0).2.next).1 ≠ ((TableIter.nextTimes 1 twoRowIter).2.next).1 := by
  decide

/-- A 32-byte header whose codepage byte (byte 29) is 5, a value absent
from the cp_mapper table, with a valid last-update date. -/
def headerUnmappedCp : List Nat := [3, 20, 1, 1] ++ List.replicate 24 0 ++ [0, 5, 0, 0]

/-- A file whose descriptor area (as read by the source from offset 33)
holds a single descriptor whose name bytes the decoder cannot fully
consume. -/
def fileBadName : List Nat := List.replicate 33 0 ++ (65 :: List.replicate 31 0)

/-- An 8-byte record for the character codec. -/
def charRecord : List Nat := [65, 66, 67, 68, 69, 70, 71, 72]

/-- C1 evaluation: an unmapped codepage byte in read_header, a field-name
decode consuming the wrong byte count in read_fields, and a short decode in
CharField materialization each hit a panic (process termination), not a
typed error value; the cp_mapper itself does produce a typed Err that
read_header then turns into a panic. -/
theorem C1_decode_failures_panic :
    (read_header headerUnmappedCp cp_mapper).panics = true ∧
    cp_mapper (byteAt headerUnmappedCp 29) = Except.error "Unknown codepage found" ∧
    (read_fields fileBadName cappedDec).panics = true ∧
    (CharField.from_record_bytes charRecord (metaAt 0 8) cappedDec).panics = true := by
  refine ⟨by decide, rfl, by decide, by decide⟩

/-- A 32-byte descriptor with name AB, type C, size 2 and all else zero. -/
def descAB : List Nat :=
  [65, 66, 0, 0, 0, 0, 0, 0, 0, 0, 0, 67, 0, 0, 0, 0, 2, 0, 0, 0, 0, 0, 0, 0, 0,
   0, 0, 0, 0, 0, 0, 0]

/-- A 96-byte file: 32-byte header, one descriptor at byte 32, terminator
record at byte 64. -/
def fileShifted : List Nat := List.replicate 32 0 ++ descAB ++ (13 :: List.replicate 31 0)

/-- C4 evaluation: parsing descriptors from byte 32 (as the spec states)
yields the one declared field and stops at the terminator, while the code,
which seeks to byte 33, misreads the area and panics on this file. -/
theorem C4_descriptor_start_eval :
    (∃ f, readFieldsSpecStart fileShifted latin1Dec = Run.ok [f] ∧
      f.name = "AB\x00\x00\x00\x00\x00\x00\x00\x00" ∧ f.datatype = 67 ∧ f.size = 2) ∧
    read_fields fileShifted latin1Dec = Run.abort "Fail to read file" ∧
    read_fields fileShifted latin1Dec ≠ readFieldsSpecStart fileShifted latin1Dec := by
  refine ⟨⟨_, rfl, by decide, by decide, by decide⟩, by decide, by decide⟩

/-- The DateTime example bytes exactly as the spec sentence lists them:
date bytes CC 40 0B 00 followed by time bytes 1E 85 25 00. -/
def dtClaimBytes : List Nat := [0xCC, 0x40, 0x0B, 0, 0x1E, 0x85, 0x25, 0]

/-- Counterexample to C7 as stated: the spec sentence's byte values do not
decode to 2020-02-29 13:00:00 under the field layout (those bytes are the
Date field value and the first half of the DateTime field of the repository
test record, not one DateTime field). -/
theorem C7_datetime_example_counterexample :
    DateTimeField.from_record_bytes dtClaimBytes (metaAt 0 8)
      ≠ Run.ok { date := { year := 2020, month := 2, day := 29 },
                 hour := 13, minute := 0, second := 0 } := by
  decide

/-- C7 as amended: the midpoint split layout with the 1721426 Julian offset
and the modulo hour/minute/second formulas holds for every 8-byte DateTime
field, and the repository test's DateTime bytes 1E 85 25 00 80 1C CA 02
decode to 2020-02-29 13:00:00. -/
theorem C7_datetime_layout :
    (∀ (record : List Nat) (meta : DbfField), meta.size = 8 →
      meta.offset + meta.size ≤ record.length →
      DateTimeField.from_record_bytes record meta
        = Run.ok (dateTimeSpecOf ((record.drop meta.offset).take 4)
            ((record.drop (meta.offset + 4)).take 4))) ∧
    DateTimeField.from_record_bytes [0x1E, 0x85, 0x25, 0, 0x80, 0x1C, 0xCA, 2] (metaAt 0 8)
      = Run.ok { date := { year := 2020, month := 2, day := 29 },
                 hour := 13, minute := 0, second := 0 } := by
  refine ⟨?_, by decide⟩
  intro record meta hsize hbound
  simp only [DateTimeField.from_record_bytes, dateTimeSpecOf, hsize]
  norm_num
  rw [if_pos (show meta.offset + 8 ≤ record.length by omega)]
  rw [if_pos (show 4 ≤ record.length - meta.offset ∧ 4 ≤ record.length - (meta.offset + 4) from
    ⟨by omega, by omega⟩)]

/-- Witness for C7 at the repository test DateTime field. -/
theorem C7_datetime_layout_witness :
    DateTimeField.from_record_bytes [0x1E, 0x85, 0x25, 0, 0x80, 0x1C, 0xCA, 2] (metaAt 0 8)
      = Run.ok (dateTimeSpecOf (([0x1E, 0x85, 0x25, 0, 0x80, 0x1C, 0xCA, 2] : List Nat).take 4)
          ((([0x1E, 0x85, 0x25, 0, 0x80, 0x1C, 0xCA, 2] : List Nat).drop 4).take 4)) := by
  have h := C7_datetime_layout.1 [0x1E, 0x85, 0x25, 0, 0x80, 0x1C, 0xCA, 2] (metaAt 0 8)
    (by decide) (by decide)
  simpa using h

/-- The day range the Date codec itself imposes: the stored i64 day count
is truncated with as i32, so the codec is faithful on the i32 range. -/
def dateCodecInRange (v : Int) : Prop := -(2 ^ 31) ≤ v ∧ v < 2 ^ 31

/-- C8: the all-zero 8-byte day count decodes to the codec epoch date
0000-12-31 and encoding that date reproduces the zero bytes; in general,
decoding any 8-byte little-endian day count inside the codec day range and
re-encoding the resulting date is the identity on the bytes. -/
theorem C8_date_roundtrip :
    RawDateField.get (List.replicate 8 0) = Run.ok { year := 0, month := 12, day := 31 } ∧
    RawDateField.set { year := 0, month := 12, day := 31 } = List.replicate 8 0 ∧
    (∀ bytes : List Nat, bytes.length = 8 → (∀ b ∈ bytes, b < 256) →
      dateCodecInRange (i64le bytes) →
      ∃ d, RawDateField.get bytes = Run.ok d ∧ RawDateField.set d = bytes) := by
  refine ⟨by decide, by decide, ?_⟩
  intro bytes hlen hb hrange
  obtain ⟨h1, h2⟩ := hrange
  refine ⟨fromDaysCE (wrap32 (i64le bytes)), ?_, ?_⟩
  · rw [RawDateField.get, if_pos hlen]
  · rw [RawDateField.set, wrap32_eq h1 h2, toDaysCE_fromDaysCE]
    exact i64ToLeBytes_i64le hlen hb

/-- The little-endian bytes of day count 737484 (2020-02-29). -/
def dateBytes737484 : List Nat := [0xCC, 0x40, 0x0B, 0, 0, 0, 0, 0]

/-- Witness for C8 at the repository test date value. -/
theorem C8_date_roundtrip_witness :
    ∃ d, RawDateField.get dateBytes737484 = Run.ok d ∧
      RawDateField.set d = dateBytes737484 :=
  C8_date_roundtrip.2.2 dateBytes737484 (by decide) (by decide) ⟨by decide, by decide⟩
